import Mathlib

/-!
Verification of the SLA clock / pause-ledger logic of the sanear-os
repository.

Timestamps are modelled as integer milliseconds since the epoch
(JS `Date.getTime()` always yields an integer).  JS numbers that may be
fractional (`slaHoras` and hour quantities) are modelled as rationals.
Firestore values that may be `null`/`undefined` are modelled as `Option`.
A Firestore `Timestamp` object is always truthy in JS, so the `!x`
emptiness tests on timestamp fields correspond exactly to `Option.isNone`.
-/

/-- A pause entry, from `src/lib/sla.ts` (`SlaPausa`).  `tipo` is the kind
tag, `motivo` the reason code, `descricao` the free-text note, `inicioEm`
the start timestamp, `fimEm` the end timestamp (`none` = pause still open). -/
structure SlaPausa where
  tipo : String
  motivo : Option String := none
  descricao : Option String := none
  inicioEm : Option Int := none
  fimEm : Option Int := none
deriving Repr, DecidableEq

instance : Inhabited SlaPausa := ⟨⟨"", none, none, none, none⟩⟩

/-- JS `String.prototype.toUpperCase`, modelled character-wise (the tags
in play are plain ASCII). -/
def jsToUpper (s : String) : String := ⟨s.data.map Char.toUpper⟩

/-- JS `String.prototype.trim`: drop leading and trailing whitespace. -/
def jsTrim (s : String) : String :=
  ⟨((s.data.dropWhile Char.isWhitespace).reverse.dropWhile
      Char.isWhitespace).reverse⟩

/-- JS `String.prototype.startsWith(p)`, as a character-list test. -/
def leadsWith : List Char → List Char → Bool
  | [], _ => true
  | _ :: _, [] => false
  | a :: as, b :: bs => a == b && leadsWith as bs

/-- `normTipo` from `src/lib/sla.ts:26-28`:
`String(v || "").toUpperCase().trim()`. -/
def normTipo (s : String) : String := jsTrim (jsToUpper s)

/-- `normalizeStatus` from `src/unnamed/part_000:781-783` and
`src/unnamed/part_001` (`String(value ?? "").trim().toUpperCase()`);
the `CaminhaoHidrojato.tsx:76-78` copy is identical.  An absent status
normalises to the empty string. -/
def normalizeStatus (status : Option String) : String :=
  jsToUpper (jsTrim (status.getD ""))

/-- `isAguardandoSanear` from `src/lib/sla.ts:30-33`. -/
def isAguardandoSanear (status : Option String) : Bool :=
  let s := normTipo (status.getD "")
  s == "AGUARDANDO_SANEAR" || s == "AGUARDANDO SANEAR"

/-- A JS value as it may appear in the `slaHoras` field (declared
`number | null`, but the data store can hold anything).  Finite numbers
are modelled as rationals; the non-finite numbers and the non-number
cases are explicit constructors. -/
inductive JsVal where
  | num (q : ℚ)
  | inf
  | negInf
  | nan
  | str (s : String)
  | jsBool (b : Bool)
  | jsNull
  | undef
deriving Repr, DecidableEq

/-- JS `typeof v === "number"` (NaN and the infinities are numbers). -/
def isJsNumber : JsVal → Bool
  | .num _ => true
  | .inf => true
  | .negInf => true
  | .nan => true
  | _ => false

/-- JS `v > 0` for a value that passed the `typeof` number check
(`NaN > 0` is false, `Infinity > 0` is true). -/
def jsGtZero : JsVal → Bool
  | .num q => decide (0 < q)
  | .inf => true
  | _ => false

/-- `getSlaHoras` from `src/lib/sla.ts:35-39`: the stored value when it is
a finite positive number (`typeof v === "number" && Number.isFinite(v)
&& v > 0`), otherwise the default of 72. -/
def getSlaHoras : JsVal → ℚ
  | .num q => if 0 < q then q else 72
  | _ => 72

/-- The inlined SLA-hours selector used at `src/unnamed/part_000:575-578`
and `src/pages/CaminhaoHidrojato.tsx:218-221`:
`typeof os.slaHoras === "number" && os.slaHoras > 0 ? os.slaHoras :
SLA_HORAS_PADRAO` (no finiteness check). -/
def effSlaInline (v : JsVal) : JsVal :=
  if isJsNumber v && jsGtZero v then v else .num 72

/-- The per-entry test of the backward scans in `src/lib/sla.ts`
(`hasOpenSanearPause`, `upsertSanearPause`, `closeSanearPause`):
kind normalises to `"SANEAR"` and the pause is still open. -/
def isOpenSanear (p : SlaPausa) : Bool :=
  normTipo p.tipo == "SANEAR" && p.fimEm.isNone

/-- `hasOpenSanearPause` from `src/lib/sla.ts:41-50`: scan the array from
its last element backward; skip entries of other kinds; report true at the
first open `SANEAR` entry. -/
def hasOpenSanearPause (pausas : Option (List SlaPausa)) : Bool :=
  (pausas.getD []).reverse.any isOpenSanear

/-- Index of the entry the backward scans of `src/lib/sla.ts:65-73` and
`110-118` stop at: the last (most recent) entry whose kind normalises to
`"SANEAR"` and whose `fimEm` is absent. -/
def lastOpenSanearIdx : List SlaPausa → Option Nat
  | [] => none
  | p :: rest =>
    match lastOpenSanearIdx rest with
    | some i => some (i + 1)
    | none => if isOpenSanear p then some 0 else none

/-- `upsertSanearPause` from `src/lib/sla.ts:61-99`.  `now` stands for the
`Timestamp.now()` taken inside the function. -/
def upsertSanearPause (now : Int) (pausas : Option (List SlaPausa))
    (nova : SlaPausa) : List SlaPausa :=
  let arr := pausas.getD []
  let inicioEm : Option Int := some (nova.inicioEm.getD now)
  match lastOpenSanearIdx arr with
  | some i =>
    let prev := arr.getD i default
    arr.set i
      { prev with
        tipo := "SANEAR"
        motivo := nova.motivo.or prev.motivo
        descricao := nova.descricao.or prev.descricao
        inicioEm := prev.inicioEm.or inicioEm
        fimEm := none }
  | none =>
    arr ++ [{ tipo := "SANEAR", motivo := nova.motivo,
              descricao := nova.descricao, inicioEm := inicioEm,
              fimEm := none }]

/-- `closeSanearPause` from `src/lib/sla.ts:108-131`.  `now` stands for the
`Timestamp.now()` default taken when no `fimEm` argument is given. -/
def closeSanearPause (now : Int) (pausas : Option (List SlaPausa))
    (fimEm : Option Int) : List SlaPausa :=
  let arr := pausas.getD []
  match lastOpenSanearIdx arr with
  | none => arr
  | some i => arr.set i { arr.getD i default with fimEm := some (fimEm.getD now) }

/-- The paused-time sum of the dashboard metrics,
`src/pages/CaminhaoHidrojato.tsx:223-232`: every pause regardless of kind;
entries whose `inicioEm` does not convert to a date are skipped; an absent
(or unconvertible) `fimEm` is replaced by `now`; only positive spans are
added (`if (ms > 0) pausadoMs += ms`). -/
def buildPausadoMs (now : Int) : List SlaPausa → Int
  | [] => 0
  | p :: rest =>
    (match p.inicioEm with
     | none => 0
     | some ini =>
       let ms := p.fimEm.getD now - ini
       if 0 < ms then ms else 0) + buildPausadoMs now rest

/-- The chargeable quantity of the dashboard metrics,
`src/pages/CaminhaoHidrojato.tsx:234`:
`utilMs = today.getTime() - created.getTime() - pausadoMs` (no clamp). -/
def buildUtilMs (created now : Int) (pausas : List SlaPausa) : Int :=
  now - created - buildPausadoMs now pausas

/-- `horasUtil = utilMs / MS_POR_HORA`, `CaminhaoHidrojato.tsx:235`. -/
def buildHorasUtil (created now : Int) (pausas : List SlaPausa) : ℚ :=
  (buildUtilMs created now pausas : ℚ) / 3600000

/-- The resolved SLA hours of the dashboard,
`CaminhaoHidrojato.tsx:218-221`, restricted to the finite-number model
used for `slaHoras` fields in the clock embeddings (the full JS-value
selector is `effSlaInline`). -/
def resolveSlaHoras : Option ℚ → ℚ
  | some q => if 0 < q then q else 72
  | none => 72

/-- The dashboard's late test, `CaminhaoHidrojato.tsx:237`:
`horasUtil > slaHoras` (strict). -/
def buildMetricsLate (created now : Int) (slaHoras : Option ℚ)
    (pausas : List SlaPausa) : Bool :=
  decide (resolveSlaHoras slaHoras < buildHorasUtil created now pausas)

/-- Modelled from the spec's words for `pausedDurationMs` (§4.2): for every
pause interval regardless of kind, `max(0, (endedAt ?? now) - startedAt)`,
summed; entries missing `startedAt` contribute zero. -/
def claimedPausedDurationMs (now : Int) : List SlaPausa → Int
  | [] => 0
  | p :: rest =>
    (match p.inicioEm with
     | none => 0
     | some ini => max 0 (p.fimEm.getD now - ini)) +
    claimedPausedDurationMs now rest

/-- Modelled from the spec's words for `chargeableElapsedMs` (§4.2):
0 when `createdAt` is absent, otherwise
`max(0, (now - createdAt) - pausedDurationMs(pauses, now))`. -/
def claimedChargeableMs (createdAt : Option Int) (pausas : List SlaPausa)
    (now : Int) : Int :=
  match createdAt with
  | none => 0
  | some c => max 0 (now - c - claimedPausedDurationMs now pausas)

/-! ## Business-day elapsed time (`businessMsBetween`, `src/unnamed/part_000:117-139`)

The source walks wall-clock time day by day using the JS `Date` local
calendar.  We model local civil time by a fixed offset `tz` (in ms) added
to the UTC instant; `setHours(24,0,0,0)` is then the next local midnight
and `getDay()` is the day-of-week of the local day index (the epoch day,
1970-01-01, was a Thursday, JS day 4). -/

def msPerDay : Int := 86400000

/-- Local calendar-day index of an instant (days since the epoch in the
`tz`-offset locale). -/
def localDayIndex (tz t : Int) : Int := (t + tz) / msPerDay

/-- UTC instant at which local day `d` starts. -/
def dayWindowStart (tz d : Int) : Int := d * msPerDay - tz

/-- `new Date(cursor).setHours(24,0,0,0)`: next local midnight. -/
def nextLocalMidnight (tz t : Int) : Int :=
  dayWindowStart tz (localDayIndex tz t + 1)

/-- `getDay()` of local day `d`: `0` = Sunday, `6` = Saturday. -/
def isWeekendDay (d : Int) : Bool :=
  (d + 4) % 7 == 0 || (d + 4) % 7 == 6

/-- The `while` loop of `businessMsBetween`
(`src/unnamed/part_000:122-136`). -/
def businessLoop (tz endT cursor : Int) : Int :=
  if h : cursor < endT then
    let segEnd := min endT (nextLocalMidnight tz cursor)
    let segMs := max 0 (segEnd - cursor)
    (if isWeekendDay (localDayIndex tz cursor) then 0 else segMs) +
      businessLoop tz endT segEnd
  else 0
termination_by (endT - cursor).toNat
decreasing_by
  have hnm : cursor < nextLocalMidnight tz cursor := by
    simp only [nextLocalMidnight, dayWindowStart, localDayIndex, msPerDay]
    omega
  simp only [Int.lt_iff_add_one_le] at h hnm
  omega

/-- `businessMsBetween` from `src/unnamed/part_000:117-139`. -/
def businessMsBetween (tz start endT : Int) : Int :=
  if endT ≤ start then 0 else businessLoop tz endT start

/-- Modelled from the spec's words (§4.2 `businessElapsedMs` and claim C4):
the portion of local day `d`'s wall-clock span that falls inside `[a, b]`. -/
def dayOverlap (tz d a b : Int) : Int :=
  max 0 (min b (dayWindowStart tz (d + 1)) - max a (dayWindowStart tz d))

/-- One summand of the claimed day-walk: a day contributes its overlap
with `[a, b]` only when it is not a Saturday or Sunday. -/
def weekdayTerm (tz a b d : Int) : Int :=
  if isWeekendDay d then 0 else dayOverlap tz d a b

/-- Sum of `weekdayTerm` over the `n + 1` local days `d, d+1, …, d+n`. -/
def weekdayOverlapSum (tz a b : Int) : Int → Nat → Int
  | d, 0 => weekdayTerm tz a b d
  | d, n + 1 => weekdayTerm tz a b d + weekdayOverlapSum tz a b (d + 1) n

/-- Modelled from the spec's words (claim C4): day-by-day weekday overlap
sum from the day of `a` to the day of `b`. -/
def businessSpecMs (tz a b : Int) : Int :=
  if b ≤ a then 0
  else
    weekdayOverlapSum tz a b (localDayIndex tz a)
      (localDayIndex tz b - localDayIndex tz a).toNat

/-- Number of open dependency pauses in a sequence. -/
def countOpenSanear (l : List SlaPausa) : Nat :=
  l.countP isOpenSanear


/-- The entry appended by `upsertSanearPause` when no open `SANEAR` pause
exists. -/
def freshSanearPause (now : Int) (nova : SlaPausa) : SlaPausa :=
  { tipo := "SANEAR", motivo := nova.motivo, descricao := nova.descricao,
    inicioEm := some (nova.inicioEm.getD now), fimEm := none }


/-- Well-formedness of the open entries of a ledger: open dependency pauses
carry the canonical tag and a start time (every entry the ledger itself
creates is of this shape). -/
def OpenEntriesCanonical (l : List SlaPausa) : Prop :=
  ∀ p ∈ l, isOpenSanear p = true →
    p.tipo = "SANEAR" ∧ p.inicioEm.isSome = true


/-! ## The alert-panel snapshot (`slaSnapshot`, `src/unnamed/part_000:540-598`) -/

/-- The work-order fields the snapshot reads.  `slaHoras` is restricted to
the finite-number model (`none` = absent/null/non-number; the full JS-value
selector is treated by `getSlaHoras`/`effSlaInline`). -/
structure OsClock where
  createdAt : Option Int
  slaPausas : List SlaPausa
  slaHoras : Option ℚ
deriving Repr, DecidableEq

/-- The pause subtraction of the snapshot,
`src/unnamed/part_000:563-571`: only pauses whose `tipo` is exactly the
literal `"SANEAR"` count, each measured with `businessMsBetween` from its
start to its end (or `now` while open); entries without a start date are
skipped. -/
def snapshotPausadoMs (tz now : Int) : List SlaPausa → Int
  | [] => 0
  | p :: rest =>
    (if p.tipo = "SANEAR" then
       match p.inicioEm with
       | none => 0
       | some ini => businessMsBetween tz ini (p.fimEm.getD now)
     else 0) + snapshotPausadoMs tz now rest

/-- `baseMs = created ? businessMsBetween(created, now) : 0`
(`src/unnamed/part_000:556`). -/
def snapshotBaseMs (tz now : Int) (createdAt : Option Int) : Int :=
  match createdAt with
  | some c => businessMsBetween tz c now
  | none => 0

/-- `ageMs = Math.max(0, baseMs - pausadoMs)` (`src/unnamed/part_000:573`). -/
def snapshotAgeMs (tz now : Int) (os : OsClock) : Int :=
  max 0 (snapshotBaseMs tz now os.createdAt -
    snapshotPausadoMs tz now os.slaPausas)

/-- `slaMs = slaHoras * MS_POR_HORA` (`src/unnamed/part_000:575-580`). -/
def snapshotSlaMs (os : OsClock) : ℚ :=
  resolveSlaHoras os.slaHoras * 3600000

/-- Membership in the snapshot's `overdue` list
(`src/unnamed/part_000:584-588`): the entry survives the `ageMs > 0`
filter and satisfies `ageMs >= slaMs`. -/
def snapshotOverdue (tz now : Int) (os : OsClock) : Bool :=
  decide (0 < snapshotAgeMs tz now os) &&
    decide (snapshotSlaMs os ≤ (snapshotAgeMs tz now os : ℚ))

/-- Membership in the snapshot's `nearDue` list
(`src/unnamed/part_000:584,590-592`): survives the `ageMs > 0` filter and
`ageMs >= slaMs * 0.75 && ageMs < slaMs`. -/
def snapshotNearDue (tz now : Int) (os : OsClock) : Bool :=
  decide (0 < snapshotAgeMs tz now os) &&
    decide (snapshotSlaMs os * 0.75 ≤ (snapshotAgeMs tz now os : ℚ)) &&
    decide ((snapshotAgeMs tz now os : ℚ) < snapshotSlaMs os)


/-- The completion guard of `handleServicoExecutado`
(`src/unnamed/part_000:886-897`): the handler returns (refusing to mark
the order complete, and before performing any write) exactly when the
normalised status is `"AGUARDANDO_SANEAR"` or an open `SANEAR` pause
exists. -/
def servicoExecutadoBlocked (status : Option String)
    (pausas : Option (List SlaPausa)) : Bool :=
  normalizeStatus status == "AGUARDANDO_SANEAR" || hasOpenSanearPause pausas

/-- `querConcluir = stAtual.startsWith("CONCLU")`
(`src/unnamed/part_001:1982`). -/
def saveDetailsWantsConclude (status : Option String) : Bool :=
  leadsWith "CONCLU".data (normalizeStatus status).data

/-- The completion guard of `handleSaveDetails`
(`src/unnamed/part_001:1977-1990`): a save that would set a concluded
status is refused (before any write) when the same disjunction holds. -/
def saveDetailsBlocked (status : Option String)
    (pausas : Option (List SlaPausa)) : Bool :=
  (normalizeStatus status == "AGUARDANDO_SANEAR" ||
    hasOpenSanearPause pausas) && saveDetailsWantsConclude status


/-! ### Equivalence of the loop with the day-walk sum -/

lemma businessLoop_eq (tz endT cursor : Int) :
    businessLoop tz endT cursor =
      if cursor < endT then
        (if isWeekendDay (localDayIndex tz cursor) then 0
         else max 0 (min endT (nextLocalMidnight tz cursor) - cursor)) +
          businessLoop tz endT (min endT (nextLocalMidnight tz cursor))
      else 0 := by
  rw [businessLoop]
  simp only [dite_eq_ite]

lemma businessLoop_self (tz endT : Int) : businessLoop tz endT endT = 0 := by
  rw [businessLoop_eq]
  simp

lemma weekdayOverlapSum_congr_left (tz b : Int) :
    ∀ (n : Nat) (d a a' : Int), a ≤ a' → a' ≤ dayWindowStart tz d →
      weekdayOverlapSum tz a b d n = weekdayOverlapSum tz a' b d n := by
  intro n
  induction n with
  | zero =>
    intro d a a' h1 h2
    simp only [weekdayOverlapSum, weekdayTerm, dayOverlap]
    split
    · rfl
    · simp only [dayWindowStart, msPerDay] at *
      omega
  | succ n ih =>
    intro d a a' h1 h2
    simp only [weekdayOverlapSum]
    have hterm : weekdayTerm tz a b d = weekdayTerm tz a' b d := by
      simp only [weekdayTerm, dayOverlap]
      split
      · rfl
      · simp only [dayWindowStart, msPerDay] at *
        omega
    have hrest : weekdayOverlapSum tz a b (d + 1) n =
        weekdayOverlapSum tz a' b (d + 1) n := by
      refine ih (d + 1) a a' h1 ?_
      simp only [dayWindowStart, msPerDay] at *
      omega
    rw [hterm, hrest]

lemma businessLoop_eq_weekdaySum (tz endT : Int) :
    ∀ (n : Nat) (cursor : Int), cursor < endT →
      localDayIndex tz endT = localDayIndex tz cursor + n →
      businessLoop tz endT cursor =
        weekdayOverlapSum tz cursor endT (localDayIndex tz cursor) n := by
  intro n
  induction n with
  | zero =>
    intro cursor hcur hday
    have hlt : endT < nextLocalMidnight tz cursor := by
      simp only [nextLocalMidnight, dayWindowStart, localDayIndex, msPerDay]
        at hday ⊢
      omega
    have hmin : min endT (nextLocalMidnight tz cursor) = endT :=
      min_eq_left (le_of_lt hlt)
    rw [businessLoop_eq, if_pos hcur, hmin, businessLoop_self]
    simp only [weekdayOverlapSum, weekdayTerm, dayOverlap]
    split
    · simp
    · simp only [nextLocalMidnight, dayWindowStart, localDayIndex, msPerDay]
        at hday hlt ⊢
      omega
  | succ n ih =>
    intro cursor hcur hday
    have hnm : cursor < nextLocalMidnight tz cursor := by
      simp only [nextLocalMidnight, dayWindowStart, localDayIndex, msPerDay]
      omega
    have hnmle : nextLocalMidnight tz cursor ≤ endT := by
      simp only [nextLocalMidnight, dayWindowStart, localDayIndex, msPerDay]
        at hday ⊢
      omega
    have hmin : min endT (nextLocalMidnight tz cursor) =
        nextLocalMidnight tz cursor := min_eq_right hnmle
    have hdaynm : localDayIndex tz (nextLocalMidnight tz cursor) =
        localDayIndex tz cursor + 1 := by
      simp only [nextLocalMidnight, dayWindowStart, localDayIndex, msPerDay]
      omega
    rw [businessLoop_eq, if_pos hcur, hmin]
    rcases lt_or_eq_of_le hnmle with hlt | heq
    · have hrec := ih (nextLocalMidnight tz cursor) hlt (by omega)
      rw [hrec, hdaynm]
      have hshift : weekdayOverlapSum tz (nextLocalMidnight tz cursor) endT
            (localDayIndex tz cursor + 1) n =
          weekdayOverlapSum tz cursor endT (localDayIndex tz cursor + 1) n := by
        refine (weekdayOverlapSum_congr_left tz endT n _ cursor
            (nextLocalMidnight tz cursor) (le_of_lt hnm) ?_).symm
        exact le_of_eq rfl
      rw [hshift]
      simp only [weekdayOverlapSum]
      congr 1
      simp only [weekdayTerm, dayOverlap]
      split
      · rfl
      · have hds : dayWindowStart tz (localDayIndex tz cursor) ≤ cursor := by
          simp only [dayWindowStart, localDayIndex, msPerDay]
          omega
        simp only [nextLocalMidnight] at hnmle ⊢
        omega
    · -- endT is exactly the next local midnight: the loop stops after this
      -- segment, and the sum's extra day contributes a zero overlap.
      have hn0 : n = 0 := by
        have hEnd : localDayIndex tz endT = localDayIndex tz cursor + 1 := by
          rw [← heq, hdaynm]
        omega
      subst hn0
      rw [← heq, businessLoop_self]
      simp only [weekdayOverlapSum, weekdayTerm, dayOverlap]
      have hds : dayWindowStart tz (localDayIndex tz cursor) ≤ cursor := by
        simp only [dayWindowStart, localDayIndex, msPerDay]
        omega
      split_ifs <;>
        (simp only [nextLocalMidnight, dayWindowStart, localDayIndex,
          msPerDay] at heq hds ⊢) <;>
        omega

/-- The loop equals the claimed weekday-overlap day walk. -/
lemma businessMsBetween_eq_spec (tz a b : Int) (h : a ≤ b) :
    businessMsBetween tz a b = businessSpecMs tz a b := by
  rcases eq_or_lt_of_le h with heq | hlt
  · subst heq
    simp [businessMsBetween, businessSpecMs]
  · have hle : localDayIndex tz a ≤ localDayIndex tz b := by
      simp only [localDayIndex, msPerDay]
      omega
    have hday : localDayIndex tz b =
        localDayIndex tz a + (localDayIndex tz b - localDayIndex tz a).toNat := by
      omega
    rw [businessMsBetween, businessSpecMs, if_neg (not_le.mpr hlt),
      if_neg (not_le.mpr hlt)]
    exact businessLoop_eq_weekdaySum tz b _ a hlt hday

/-! ## Pause-ledger lemmas -/

lemma hasOpenSanearPause_iff (l : List SlaPausa) :
    hasOpenSanearPause (some l) = true ↔ ∃ p ∈ l, isOpenSanear p = true := by
  simp [hasOpenSanearPause, List.any_eq_true, List.mem_reverse]

lemma hasOpenSanearPause_eq_false_iff (l : List SlaPausa) :
    hasOpenSanearPause (some l) = false ↔ ∀ p ∈ l, isOpenSanear p = false := by
  simp [hasOpenSanearPause, List.any_eq_false, List.mem_reverse]

lemma lastOpenSanearIdx_spec (l : List SlaPausa) :
    (lastOpenSanearIdx l = none → ∀ p ∈ l, isOpenSanear p = false) ∧
    (∀ i, lastOpenSanearIdx l = some i →
      i < l.length ∧ isOpenSanear (l.getD i default) = true ∧
      ∀ j, i < j → j < l.length → isOpenSanear (l.getD j default) = false) := by
  induction l with
  | nil =>
    constructor
    · intro _ p hp
      cases hp
    · intro i h
      cases h
  | cons p rest ih =>
    constructor
    · intro hnone q hq
      simp only [lastOpenSanearIdx] at hnone
      cases hr : lastOpenSanearIdx rest with
      | some k => rw [hr] at hnone; cases hnone
      | none =>
        rw [hr] at hnone
        rcases List.mem_cons.mp hq with hq | hq
        · subst hq
          by_contra hopen
          rw [if_pos (by revert hopen; cases isOpenSanear q <;> simp)] at hnone
          cases hnone
        · exact ih.1 hr q hq
    · intro i hi
      simp only [lastOpenSanearIdx] at hi
      cases hr : lastOpenSanearIdx rest with
      | some k =>
        rw [hr] at hi
        have hik : i = k + 1 := by
          cases hi
          rfl
        subst hik
        obtain ⟨hk1, hk2, hk3⟩ := ih.2 k hr
        refine ⟨by simpa using Nat.succ_lt_succ hk1, by simpa using hk2, ?_⟩
        intro j hj1 hj2
        cases j with
        | zero => omega
        | succ j' =>
          rw [List.getD_cons_succ]
          exact hk3 j' (by omega) (by simpa using hj2)
      | none =>
        rw [hr] at hi
        by_cases hopen : isOpenSanear p = true
        · rw [if_pos hopen] at hi
          have hi0 : i = 0 := by
            cases hi
            rfl
          subst hi0
          refine ⟨by simp, by simpa using hopen, ?_⟩
          intro j hj1 hj2
          cases j with
          | zero => omega
          | succ j' =>
            rw [List.getD_cons_succ]
            have hmem : rest.getD j' default ∈ rest := by
              have hlt : j' < rest.length := by simpa using hj2
              rw [List.getD_eq_getElem rest default hlt]
              exact List.getElem_mem hlt
            exact ih.1 hr _ hmem
        · rw [if_neg hopen] at hi
          cases hi

lemma lastOpenSanearIdx_eq_none_of_hasOpen_false (l : List SlaPausa)
    (h : hasOpenSanearPause (some l) = false) : lastOpenSanearIdx l = none := by
  cases hr : lastOpenSanearIdx l with
  | none => rfl
  | some i =>
    obtain ⟨h1, h2, _⟩ := (lastOpenSanearIdx_spec l).2 i hr
    have hmem : l.getD i default ∈ l := by
      rw [List.getD_eq_getElem l default h1]
      exact List.getElem_mem h1
    rw [(hasOpenSanearPause_eq_false_iff l).mp h _ hmem] at h2
    cases h2

lemma lastOpenSanearIdx_isSome_of_hasOpen (l : List SlaPausa)
    (h : hasOpenSanearPause (some l) = true) :
    ∃ i, lastOpenSanearIdx l = some i := by
  cases hr : lastOpenSanearIdx l with
  | none =>
    obtain ⟨p, hp, hopen⟩ := (hasOpenSanearPause_iff l).mp h
    rw [(lastOpenSanearIdx_spec l).1 hr p hp] at hopen
    cases hopen
  | some i => exact ⟨i, rfl⟩

lemma countP_pos_of_getD {P : SlaPausa → Bool} (l : List SlaPausa) (j : Nat)
    (hj : j < l.length) (hP : P (l.getD j default) = true) : 0 < l.countP P := by
  refine List.countP_pos_iff.mpr ⟨l.getD j default, ?_, hP⟩
  rw [List.getD_eq_getElem l default hj]
  exact List.getElem_mem hj

lemma two_le_countP {P : SlaPausa → Bool} :
    ∀ (l : List SlaPausa) (i j : Nat), i < j → j < l.length →
      P (l.getD i default) = true → P (l.getD j default) = true →
      2 ≤ l.countP P := by
  intro l
  induction l with
  | nil =>
    intro i j _ hj
    simp at hj
  | cons p rest ih =>
    intro i j hij hj hPi hPj
    cases i with
    | zero =>
      rw [List.getD_cons_zero] at hPi
      cases j with
      | zero => omega
      | succ j' =>
        rw [List.getD_cons_succ] at hPj
        have hrest : 0 < rest.countP P :=
          countP_pos_of_getD rest j' (by simpa using hj) hPj
        rw [List.countP_cons, if_pos hPi]
        omega
    | succ i' =>
      cases j with
      | zero => omega
      | succ j' =>
        rw [List.getD_cons_succ] at hPi hPj
        have := ih i' j' (by omega) (by simpa using hj) hPi hPj
        rw [List.countP_cons]
        omega

lemma countP_eq_one_of_unique {P : SlaPausa → Bool} :
    ∀ (l : List SlaPausa) (i : Nat), i < l.length →
      P (l.getD i default) = true →
      (∀ j, j < l.length → j ≠ i → P (l.getD j default) = false) →
      l.countP P = 1 := by
  intro l
  induction l with
  | nil =>
    intro i hi
    simp at hi
  | cons p rest ih =>
    intro i hi hPi huniq
    cases i with
    | zero =>
      rw [List.getD_cons_zero] at hPi
      have hrest : rest.countP P = 0 := by
        rw [List.countP_eq_zero]
        intro a ha
        obtain ⟨n, hn, rfl⟩ := List.mem_iff_getElem.mp ha
        have := huniq (n + 1) (by simpa using Nat.succ_lt_succ hn) (by omega)
        rw [List.getD_cons_succ, List.getD_eq_getElem rest default hn] at this
        simp [this]
      rw [List.countP_cons, if_pos hPi, hrest]
    | succ i' =>
      have hP0 : P p = false := by
        have := huniq 0 (by simp) (by omega)
        rwa [List.getD_cons_zero] at this
      have hPi' : P (rest.getD i' default) = true := by
        rwa [List.getD_cons_succ] at hPi
      have := ih i' (by simpa using hi) hPi' ?_
      · rw [List.countP_cons, if_neg (by simp [hP0]), this]
      · intro j hj hji
        have := huniq (j + 1) (by simpa using Nat.succ_lt_succ hj) (by omega)
        rwa [List.getD_cons_succ] at this


/-- C6: `closeDependencyPause` (= `closeSanearPause`) with no open
`EXTERNAL_DEPENDENCY` (= `SANEAR`) pause returns its input unchanged (a
tolerated no-op); with an open one, it sets `endedAt` (`fimEm`) on the most
recent open `SANEAR` entry — every entry at another position, and every
other field of the updated entry, is unchanged, and the length is kept. -/
theorem c6_close_noop_or_sets_most_recent (now : Int) (f : Option Int)
    (arr : List SlaPausa) :
    (hasOpenSanearPause (some arr) = false →
      closeSanearPause now (some arr) f = arr) ∧
    (∀ i, lastOpenSanearIdx arr = some i →
      i < arr.length ∧
      isOpenSanear (arr.getD i default) = true ∧
      (∀ j, i < j → j < arr.length →
        isOpenSanear (arr.getD j default) = false) ∧
      (closeSanearPause now (some arr) f).length = arr.length ∧
      (closeSanearPause now (some arr) f).getD i default =
        { arr.getD i default with fimEm := some (f.getD now) } ∧
      (∀ j, j < arr.length → j ≠ i →
        (closeSanearPause now (some arr) f).getD j default =
          arr.getD j default)) := by
  constructor
  · intro hno
    have hnone := lastOpenSanearIdx_eq_none_of_hasOpen_false arr hno
    simp [closeSanearPause, hnone]
  · intro i hi
    obtain ⟨h1, h2, h3⟩ := (lastOpenSanearIdx_spec arr).2 i hi
    have hclose : closeSanearPause now (some arr) f =
        arr.set i { arr.getD i default with fimEm := some (f.getD now) } := by
      simp [closeSanearPause, hi]
    refine ⟨h1, h2, h3, ?_, ?_, ?_⟩
    · rw [hclose, List.length_set]
    · rw [hclose]
      have hlt : i < (arr.set i
          { arr.getD i default with fimEm := some (f.getD now) }).length := by
        rw [List.length_set]
        exact h1
      rw [List.getD_eq_getElem _ default hlt, List.getElem_set_self]
    · intro j hj hji
      rw [hclose]
      have hlt : j < (arr.set i
          { arr.getD i default with fimEm := some (f.getD now) }).length := by
        rw [List.length_set]
        exact hj
      rw [List.getD_eq_getElem _ default hlt,
        List.getElem_set_ne (by omega), List.getD_eq_getElem arr default hj]

/-- Witness for C6: a sequence whose only `SANEAR` pause is already closed
is returned unchanged. -/
theorem c6_close_noop_or_sets_most_recent_witness :
    closeSanearPause 99 (some [⟨"SANEAR", some "m", none, some 0, some 10⟩])
      none = [⟨"SANEAR", some "m", none, some 0, some 10⟩] :=
  (c6_close_noop_or_sets_most_recent 99 none
    [⟨"SANEAR", some "m", none, some 0, some 10⟩]).1 (by decide)

lemma getD_set_self (l : List SlaPausa) (i : Nat) (v : SlaPausa)
    (h : i < l.length) : (l.set i v).getD i default = v := by
  have hlt : i < (l.set i v).length := by
    rw [List.length_set]
    exact h
  rw [List.getD_eq_getElem _ default hlt, List.getElem_set_self]

lemma getD_set_ne (l : List SlaPausa) (i j : Nat) (v : SlaPausa)
    (hj : j < l.length) (hne : j ≠ i) :
    (l.set i v).getD j default = l.getD j default := by
  have hlt : j < (l.set i v).length := by
    rw [List.length_set]
    exact hj
  rw [List.getD_eq_getElem _ default hlt,
    List.getElem_set_ne (by omega), List.getD_eq_getElem l default hj]


lemma normTipo_sanear : normTipo "SANEAR" = "SANEAR" := by decide

lemma isOpenSanear_mk (m d : Option String) (ini : Option Int) :
    isOpenSanear ⟨"SANEAR", m, d, ini, none⟩ = true := by
  simp [isOpenSanear, normTipo_sanear]


lemma upsert_master (now : Int) (arr : List SlaPausa) (nova : SlaPausa)
    (hcount : countOpenSanear arr ≤ 1)
    (hwf : OpenEntriesCanonical arr)
    (hm : nova.motivo.isSome = true) (hd : nova.descricao.isSome = true) :
    (∀ i, lastOpenSanearIdx arr = some i →
      (upsertSanearPause now (some arr) nova).length = arr.length ∧
      ((upsertSanearPause now (some arr) nova).getD i default).motivo
        = nova.motivo ∧
      ((upsertSanearPause now (some arr) nova).getD i default).descricao
        = nova.descricao ∧
      ((upsertSanearPause now (some arr) nova).getD i default).inicioEm
        = (arr.getD i default).inicioEm ∧
      ((upsertSanearPause now (some arr) nova).getD i default).tipo
        = (arr.getD i default).tipo ∧
      ((upsertSanearPause now (some arr) nova).getD i default).fimEm = none ∧
      (∀ j, j < arr.length → j ≠ i →
        (upsertSanearPause now (some arr) nova).getD j default
          = arr.getD j default)) ∧
    (lastOpenSanearIdx arr = none →
      upsertSanearPause now (some arr) nova
        = arr ++ [freshSanearPause now nova]) ∧
    countOpenSanear (upsertSanearPause now (some arr) nova) = 1 ∧
    OpenEntriesCanonical (upsertSanearPause now (some arr) nova) := by
  obtain ⟨m, hm'⟩ := Option.isSome_iff_exists.mp hm
  obtain ⟨d, hd'⟩ := Option.isSome_iff_exists.mp hd
  cases hidx : lastOpenSanearIdx arr with
  | none =>
    have hclosed := (lastOpenSanearIdx_spec arr).1 hidx
    have hres : upsertSanearPause now (some arr) nova
        = arr ++ [freshSanearPause now nova] := by
      simp [upsertSanearPause, hidx, freshSanearPause]
    refine ⟨?_, fun _ => hres, ?_, ?_⟩
    · intro i hi
      cases hi
    · rw [hres]
      unfold countOpenSanear
      rw [List.countP_append]
      have h0 : arr.countP (fun p => isOpenSanear p) = 0 :=
        List.countP_eq_zero.mpr (fun p hp => by simp [hclosed p hp])
      have h1 : isOpenSanear (freshSanearPause now nova) = true :=
        isOpenSanear_mk _ _ _
      simp [h0, h1]
    · rw [hres]
      intro p hp hopen
      rcases List.mem_append.mp hp with hp | hp
      · rw [hclosed p hp] at hopen
        cases hopen
      · have : p = freshSanearPause now nova := by simpa using hp
        subst this
        exact ⟨rfl, rfl⟩
  | some i =>
    obtain ⟨h1, h2, h3⟩ := (lastOpenSanearIdx_spec arr).2 i hidx
    have hmem : arr.getD i default ∈ arr := by
      rw [List.getD_eq_getElem arr default h1]
      exact List.getElem_mem h1
    obtain ⟨htipo, hini⟩ := hwf _ hmem h2
    obtain ⟨x, hx⟩ := Option.isSome_iff_exists.mp hini
    have hres : upsertSanearPause now (some arr) nova = arr.set i
        { arr.getD i default with
          tipo := "SANEAR"
          motivo := nova.motivo.or (arr.getD i default).motivo
          descricao := nova.descricao.or (arr.getD i default).descricao
          inicioEm := (arr.getD i default).inicioEm.or
            (some (nova.inicioEm.getD now))
          fimEm := none } := by
      simp [upsertSanearPause, hidx]
    have huniq : ∀ j, j < arr.length → j ≠ i →
        isOpenSanear (arr.getD j default) = false := by
      intro j hj hji
      by_contra hopen
      have hopen' : isOpenSanear (arr.getD j default) = true := by
        revert hopen
        cases isOpenSanear (arr.getD j default) <;> simp
      rcases Nat.lt_or_ge j i with hlt | hge
      · have := two_le_countP arr j i hlt h1 hopen' h2
        unfold countOpenSanear at hcount
        omega
      · have hgt : i < j := by omega
        rw [h3 j hgt hj] at hopen'
        cases hopen'
    have hlen : (upsertSanearPause now (some arr) nova).length = arr.length := by
      rw [hres, List.length_set]
    have hgetset : (upsertSanearPause now (some arr) nova).getD i default =
        { arr.getD i default with
          tipo := "SANEAR"
          motivo := nova.motivo.or (arr.getD i default).motivo
          descricao := nova.descricao.or (arr.getD i default).descricao
          inicioEm := (arr.getD i default).inicioEm.or
            (some (nova.inicioEm.getD now))
          fimEm := none } := by
      rw [hres, getD_set_self _ _ _ h1]
    have hgetne : ∀ j, j < arr.length → j ≠ i →
        (upsertSanearPause now (some arr) nova).getD j default
          = arr.getD j default := by
      intro j hj hji
      rw [hres, getD_set_ne _ _ _ _ hj hji]
    have hopennew : isOpenSanear ((upsertSanearPause now (some arr) nova).getD
        i default) = true := by
      rw [hgetset]
      exact isOpenSanear_mk _ _ _
    refine ⟨?_, ?_, ?_, ?_⟩
    · intro i' hi'
      have hii : i' = i := by
        cases hi'
        rfl
      subst hii
      refine ⟨hlen, ?_, ?_, ?_, ?_, ?_, hgetne⟩
      · rw [hgetset]
        show nova.motivo.or (arr.getD i' default).motivo = nova.motivo
        rw [hm', Option.or_some]
      · rw [hgetset]
        show nova.descricao.or (arr.getD i' default).descricao = nova.descricao
        rw [hd', Option.or_some]
      · rw [hgetset]
        show (arr.getD i' default).inicioEm.or _ = (arr.getD i' default).inicioEm
        rw [hx, Option.or_some]
      · rw [hgetset, htipo]
      · rw [hgetset]
    · intro hnone
      cases hnone
    · refine countP_eq_one_of_unique _ i (by omega) hopennew ?_
      intro j hj hji
      rw [hlen] at hj
      rw [hgetne j hj hji]
      exact huniq j hj hji
    · intro p hp hopen
      obtain ⟨n, hn, rfl⟩ := List.mem_iff_getElem.mp hp
      have hn' : n < arr.length := by
        rw [← hlen]
        exact hn
      rw [← List.getD_eq_getElem _ default hn] at hopen ⊢
      by_cases hni : n = i
      · subst hni
        rw [hgetset]
        refine ⟨rfl, ?_⟩
        show ((arr.getD n default).inicioEm.or _).isSome = true
        rw [hx, Option.or_some]
        rfl
      · rw [hgetne n hn' hni] at hopen
        rw [huniq n hn' hni] at hopen
        cases hopen

/-- C5: on a pause sequence with at most one open `EXTERNAL_DEPENDENCY`
(= `SANEAR`) pause whose open entries are ledger-shaped, and a call that
supplies a reason and a note, `openDependencyPause` (= `upsertSanearPause`)
updates the most recent open entry in place (reason/note replaced, length,
`startedAt` and kind untouched, entry kept open, all other entries
unchanged) or, when none is open, appends a fresh open `SANEAR` pause with
`endedAt` absent; the result has exactly one open `SANEAR` pause, and a
second call in a row leaves the second call's reason/note in place with
the `startedAt` of the first result preserved. -/
theorem c5_upsert_idempotent_single_open (now : Int) (arr : List SlaPausa)
    (nova : SlaPausa)
    (hcount : countOpenSanear arr ≤ 1)
    (hwf : OpenEntriesCanonical arr)
    (hm : nova.motivo.isSome = true) (hd : nova.descricao.isSome = true) :
    (∀ i, lastOpenSanearIdx arr = some i →
      (∀ j, i < j → j < arr.length →
        isOpenSanear (arr.getD j default) = false) ∧
      (upsertSanearPause now (some arr) nova).length = arr.length ∧
      ((upsertSanearPause now (some arr) nova).getD i default).motivo
        = nova.motivo ∧
      ((upsertSanearPause now (some arr) nova).getD i default).descricao
        = nova.descricao ∧
      ((upsertSanearPause now (some arr) nova).getD i default).inicioEm
        = (arr.getD i default).inicioEm ∧
      ((upsertSanearPause now (some arr) nova).getD i default).tipo
        = (arr.getD i default).tipo ∧
      ((upsertSanearPause now (some arr) nova).getD i default).fimEm = none ∧
      (∀ j, j < arr.length → j ≠ i →
        (upsertSanearPause now (some arr) nova).getD j default
          = arr.getD j default)) ∧
    (hasOpenSanearPause (some arr) = false →
      upsertSanearPause now (some arr) nova
        = arr ++ [freshSanearPause now nova]) ∧
    countOpenSanear (upsertSanearPause now (some arr) nova) = 1 ∧
    (∀ (now2 : Int) (nova2 : SlaPausa),
      nova2.motivo.isSome = true → nova2.descricao.isSome = true →
      ∃ k, lastOpenSanearIdx (upsertSanearPause now (some arr) nova) = some k ∧
        (upsertSanearPause now2
            (some (upsertSanearPause now (some arr) nova)) nova2).length
          = (upsertSanearPause now (some arr) nova).length ∧
        ((upsertSanearPause now2
            (some (upsertSanearPause now (some arr) nova)) nova2).getD k
              default).motivo = nova2.motivo ∧
        ((upsertSanearPause now2
            (some (upsertSanearPause now (some arr) nova)) nova2).getD k
              default).descricao = nova2.descricao ∧
        ((upsertSanearPause now2
            (some (upsertSanearPause now (some arr) nova)) nova2).getD k
              default).inicioEm
          = ((upsertSanearPause now (some arr) nova).getD k default).inicioEm) := by
  obtain ⟨hA, hB, hC, hE⟩ := upsert_master now arr nova hcount hwf hm hd
  refine ⟨?_, ?_, hC, ?_⟩
  · intro i hi
    obtain ⟨_, _, h3⟩ := (lastOpenSanearIdx_spec arr).2 i hi
    obtain ⟨l1, l2, l3, l4, l5, l6, l7⟩ := hA i hi
    exact ⟨h3, l1, l2, l3, l4, l5, l6, l7⟩
  · intro hno
    exact hB (lastOpenSanearIdx_eq_none_of_hasOpen_false arr hno)
  · intro now2 nova2 hm2 hd2
    have hopen : hasOpenSanearPause
        (some (upsertSanearPause now (some arr) nova)) = true := by
      rw [hasOpenSanearPause_iff]
      have hpos : 0 < countOpenSanear (upsertSanearPause now (some arr) nova) := by
        omega
      exact List.countP_pos_iff.mp hpos
    obtain ⟨k, hk⟩ :=
      lastOpenSanearIdx_isSome_of_hasOpen (upsertSanearPause now (some arr) nova)
        hopen
    obtain ⟨hA2, _, _, _⟩ := upsert_master now2
      (upsertSanearPause now (some arr) nova) nova2 (by omega) hE hm2 hd2
    obtain ⟨l1, l2, l3, l4, _, _, _⟩ := hA2 k hk
    exact ⟨k, hk, l1, l2, l3, l4⟩

/-- Witness for C5: upserting into an empty ledger appends one fresh open
pause, and the result has exactly one open dependency pause. -/
theorem c5_upsert_idempotent_single_open_witness :
    upsertSanearPause 7 (some [])
        ⟨"SANEAR", some "motivo1", some "nota1", some 5, none⟩
      = [⟨"SANEAR", some "motivo1", some "nota1", some 5, none⟩] ∧
    countOpenSanear (upsertSanearPause 7 (some [])
        ⟨"SANEAR", some "motivo1", some "nota1", some 5, none⟩) = 1 := by
  have h := c5_upsert_idempotent_single_open 7 []
    ⟨"SANEAR", some "motivo1", some "nota1", some 5, none⟩
    (by decide) (by intro p hp; cases hp) (by decide) (by decide)
  refine ⟨?_, h.2.2.1⟩
  have hb := h.2.1 (by decide)
  simpa [freshSanearPause] using hb


lemma weekdayOverlapSum_nonneg (tz a b : Int) :
    ∀ (n : Nat) (d : Int), 0 ≤ weekdayOverlapSum tz a b d n := by
  intro n
  induction n with
  | zero =>
    intro d
    simp only [weekdayOverlapSum, weekdayTerm]
    split
    · exact le_refl 0
    · exact le_max_left 0 _
  | succ n ih =>
    intro d
    simp only [weekdayOverlapSum]
    have h1 : (0 : Int) ≤ weekdayTerm tz a b d := by
      simp only [weekdayTerm]
      split
      · exact le_refl 0
      · exact le_max_left 0 _
    have h2 := ih (d + 1)
    omega

lemma businessMsBetween_nonneg (tz a b : Int) :
    0 ≤ businessMsBetween tz a b := by
  by_cases h : b ≤ a
  · simp [businessMsBetween, h]
  · rw [businessMsBetween_eq_spec tz a b (by omega)]
    rw [businessSpecMs, if_neg h]
    exact weekdayOverlapSum_nonneg tz a b _ _

lemma snapshotPausadoMs_nonneg (tz now : Int) :
    ∀ l : List SlaPausa, 0 ≤ snapshotPausadoMs tz now l := by
  intro l
  induction l with
  | nil => simp [snapshotPausadoMs]
  | cons p rest ih =>
    simp only [snapshotPausadoMs]
    have h1 : (0 : Int) ≤ (if p.tipo = "SANEAR" then
        match p.inicioEm with
        | none => 0
        | some ini => businessMsBetween tz ini (p.fimEm.getD now)
      else 0) := by
      split
      · cases p.inicioEm with
        | none => exact le_refl 0
        | some ini => exact businessMsBetween_nonneg tz ini _
      · exact le_refl 0
    omega

lemma resolveSlaHoras_pos (v : Option ℚ) : 0 < resolveSlaHoras v := by
  cases v with
  | none => norm_num [resolveSlaHoras]
  | some q =>
    simp only [resolveSlaHoras]
    split
    · assumption
    · norm_num

lemma snapshotSlaMs_pos (os : OsClock) : 0 < snapshotSlaMs os :=
  mul_pos (resolveSlaHoras_pos os.slaHoras) (by norm_num)

/-- C1 (amended): the alert surface (`slaSnapshot`) classifies a work order
overdue exactly when `ageMs >= slaMs` and near-due exactly when
`slaMs * 0.75 <= ageMs < slaMs`; the dashboard counter (`buildMetrics`)
instead uses the strict test `horasUtil > slaHoras`, so there the boundary
`elapsed == slaHours` is not counted late (and it has no near-due tier). -/
theorem c1_overdue_thresholds (tz now : Int) (os : OsClock) :
    (snapshotOverdue tz now os = true ↔
      snapshotSlaMs os ≤ (snapshotAgeMs tz now os : ℚ)) ∧
    (snapshotNearDue tz now os = true ↔
      snapshotSlaMs os * 0.75 ≤ (snapshotAgeMs tz now os : ℚ) ∧
        (snapshotAgeMs tz now os : ℚ) < snapshotSlaMs os) ∧
    (∀ (created now' : Int) (sla : Option ℚ) (ps : List SlaPausa),
      buildMetricsLate created now' sla ps = true ↔
        resolveSlaHoras sla < buildHorasUtil created now' ps) := by
  refine ⟨?_, ?_, ?_⟩
  · rw [snapshotOverdue]
    simp only [Bool.and_eq_true, decide_eq_true_eq]
    constructor
    · exact fun h => h.2
    · intro h
      refine ⟨?_, h⟩
      have h0 : (0 : ℚ) < (snapshotAgeMs tz now os : ℚ) :=
        lt_of_lt_of_le (snapshotSlaMs_pos os) h
      exact_mod_cast h0
  · rw [snapshotNearDue]
    simp only [Bool.and_eq_true, decide_eq_true_eq]
    constructor
    · exact fun h => ⟨h.1.2, h.2⟩
    · intro h
      refine ⟨⟨?_, h.1⟩, h.2⟩
      have h0 : (0 : ℚ) < (snapshotAgeMs tz now os : ℚ) :=
        lt_of_lt_of_le (mul_pos (snapshotSlaMs_pos os) (by norm_num)) h.1
      exact_mod_cast h0
  · intro created now' sla ps
    rw [buildMetricsLate]
    simp only [decide_eq_true_eq]

/-- Counterexample for C1 as stated: with `createdAt = 0`, no pauses,
`slaHours = 72` and `now` exactly 72 hours later, the chargeable elapsed
hours equal the SLA allowance, yet the dashboard's late counter does not
classify the order overdue (it requires a strictly greater value). -/
theorem c1_counterexample :
    buildHorasUtil 0 259200000 [] = 72 ∧
    buildMetricsLate 0 259200000 (some 72) [] = false := by
  constructor
  · norm_num [buildHorasUtil, buildUtilMs, buildPausadoMs]
  · norm_num [buildMetricsLate, resolveSlaHoras, buildHorasUtil, buildUtilMs,
      buildPausadoMs]

/-- C2 (amended): the alert surface's chargeable age is `0` when
`createdAt` is absent and is clamped at zero, hence non-negative on every
input; the dashboard surface computes `(now - createdAt) - pausedMs`
without the clamp, so its value can be negative (see the counterexample). -/
theorem c2_chargeable_clamped_nonneg (tz now : Int) (os : OsClock) :
    0 ≤ snapshotAgeMs tz now os ∧
    (os.createdAt = none → snapshotAgeMs tz now os = 0) := by
  constructor
  · exact le_max_left 0 _
  · intro h
    have hp := snapshotPausadoMs_nonneg tz now os.slaPausas
    simp only [snapshotAgeMs, snapshotBaseMs, h]
    omega

/-- Witness for C2's amended theorem. -/
theorem c2_chargeable_clamped_nonneg_witness :
    0 ≤ snapshotAgeMs 0 5 ⟨none, [], none⟩ ∧
    snapshotAgeMs 0 5 ⟨none, [], none⟩ = 0 :=
  ⟨(c2_chargeable_clamped_nonneg 0 5 ⟨none, [], none⟩).1,
    (c2_chargeable_clamped_nonneg 0 5 ⟨none, [], none⟩).2 rfl⟩

/-- Counterexample for C2 as stated: the dashboard's chargeable quantity is
negative when a recorded pause is longer than the raw elapsed span (the
claimed `max(0, ...)` would give `0`). -/
theorem c2_counterexample :
    buildUtilMs 100 200 [⟨"EXTERN", none, none, some 0, some 300⟩] = -200 ∧
    claimedChargeableMs (some 100)
      [⟨"EXTERN", none, none, some 0, some 300⟩] 200 = 0 ∧
    ¬ 0 ≤ buildUtilMs 100 200 [⟨"EXTERN", none, none, some 0, some 300⟩] := by
  refine ⟨by decide, by decide, by decide⟩

lemma buildPausadoMs_eq_claimed (now : Int) :
    ∀ ps : List SlaPausa,
      buildPausadoMs now ps = claimedPausedDurationMs now ps := by
  intro ps
  induction ps with
  | nil => rfl
  | cons p rest ih =>
    simp only [buildPausadoMs, claimedPausedDurationMs, ih]
    congr 1
    cases p.inicioEm with
    | none => rfl
    | some ini =>
      simp only []
      omega

/-- C3 (amended): the dashboard's paused-duration sums every pause interval
regardless of kind, each contributing `max(0, (endedAt ?? now) -
startedAt)` with entries missing `startedAt` skipped; the alert surface's
paused-duration instead skips every pause whose kind is not exactly the
literal `"SANEAR"` (and measures the counted ones in business-day ms). -/
theorem c3_paused_duration (now : Int) :
    (∀ ps : List SlaPausa,
      buildPausadoMs now ps = claimedPausedDurationMs now ps) ∧
    (∀ (tz : Int) (p : SlaPausa) (ps : List SlaPausa), p.tipo ≠ "SANEAR" →
      snapshotPausadoMs tz now (p :: ps) = snapshotPausadoMs tz now ps) := by
  refine ⟨buildPausadoMs_eq_claimed now, ?_⟩
  intro tz p ps h
  simp [snapshotPausadoMs, h]

/-- Witness for C3's amended theorem. -/
theorem c3_paused_duration_witness :
    snapshotPausadoMs 0 9 ([⟨"OUTRO", none, none, some 1, none⟩] ++ []) =
      snapshotPausadoMs 0 9 [] :=
  (c3_paused_duration 9).2 0 ⟨"OUTRO", none, none, some 1, none⟩ [] (by decide)

/-- Counterexample for C3 as stated: the alert surface's paused sum gives a
pause of kind `"OUTRO"` zero weight, where the claimed every-kind formula
charges its full hour. -/
theorem c3_counterexample :
    snapshotPausadoMs 0 3600000 [⟨"OUTRO", none, none, some 0, some 3600000⟩]
      = 0 ∧
    claimedPausedDurationMs 3600000
      [⟨"OUTRO", none, none, some 0, some 3600000⟩] = 3600000 := by
  refine ⟨by decide, by decide⟩

lemma buildPausadoMs_change_le (now1 now2 : Int) (h : now1 ≤ now2) :
    ∀ ps : List SlaPausa,
      buildPausadoMs now2 ps ≤ buildPausadoMs now1 ps +
        (ps.countP (fun p => p.inicioEm.isSome && p.fimEm.isNone) : Int) *
          (now2 - now1) := by
  intro ps
  induction ps with
  | nil => simp [buildPausadoMs]
  | cons p rest ih =>
    cases hini : p.inicioEm with
    | none =>
      simp only [buildPausadoMs, hini, List.countP_cons]
      simp [hini]
      omega
    | some ini =>
      cases hfim : p.fimEm with
      | some f =>
        simp only [buildPausadoMs, hini, hfim, List.countP_cons]
        simp [hini, hfim]
        split_ifs <;> omega
      | none =>
        simp only [buildPausadoMs, hini, hfim, List.countP_cons]
        simp only [Option.isSome_some, Option.isNone_none, Bool.and_true,
          if_true, Option.getD_none]
        have hterm : (if 0 < now2 - ini then now2 - ini else 0) ≤
            (if 0 < now1 - ini then now1 - ini else 0) + (now2 - now1) := by
          split_ifs <;> omega
        have hmul : (((rest.countP
              (fun p => p.inicioEm.isSome && p.fimEm.isNone)) + 1 : Nat) : Int)
              * (now2 - now1) =
            ((rest.countP
              (fun p => p.inicioEm.isSome && p.fimEm.isNone)) : Int)
              * (now2 - now1) + (now2 - now1) := by
          push_cast
          ring
        rw [hmul]
        omega

/-- C7 (amended): with at most one open pause in the list, the chargeable
elapsed quantities are monotone non-decreasing in the reference time — both
the dashboard's unclamped `utilMs` and the claimed clamped form; with two
or more open pauses monotonicity fails (see the counterexample). -/
theorem c7_monotone_single_open (created now1 now2 : Int)
    (ps : List SlaPausa) (h : now1 ≤ now2)
    (hcount : ps.countP (fun p => p.inicioEm.isSome && p.fimEm.isNone) ≤ 1) :
    buildUtilMs created now1 ps ≤ buildUtilMs created now2 ps ∧
    claimedChargeableMs (some created) ps now1 ≤
      claimedChargeableMs (some created) ps now2 := by
  have hb := buildPausadoMs_change_le now1 now2 h ps
  have hc : ((ps.countP (fun p => p.inicioEm.isSome && p.fimEm.isNone)) : Int)
      ≤ 1 := by exact_mod_cast hcount
  have hnn : (0:Int) ≤ now2 - now1 := by omega
  have hkey : buildPausadoMs now2 ps ≤ buildPausadoMs now1 ps +
      (now2 - now1) := by
    have hmul := mul_le_mul_of_nonneg_right hc hnn
    rw [one_mul] at hmul
    omega
  constructor
  · simp only [buildUtilMs]
    omega
  · simp only [claimedChargeableMs, ← buildPausadoMs_eq_claimed]
    omega

/-- Witness for C7's amended theorem. -/
theorem c7_monotone_single_open_witness :
    buildUtilMs 0 3 [] ≤ buildUtilMs 0 8 [] ∧
    claimedChargeableMs (some 0) [] 3 ≤ claimedChargeableMs (some 0) [] 8 :=
  c7_monotone_single_open 0 3 8 [] (by decide) (by decide)

/-- Counterexample for C7 as stated: with two open pauses the chargeable
elapsed time strictly decreases as `now` advances — both in the claimed
clamped form and in the dashboard's unclamped quantity. -/
theorem c7_counterexample :
    (100 : Int) ≤ 200 ∧
    claimedChargeableMs (some 0)
        [⟨"A", none, none, some 100, none⟩, ⟨"B", none, none, some 100, none⟩]
        200 <
      claimedChargeableMs (some 0)
        [⟨"A", none, none, some 100, none⟩, ⟨"B", none, none, some 100, none⟩]
        100 ∧
    buildUtilMs 0 200
        [⟨"A", none, none, some 100, none⟩, ⟨"B", none, none, some 100, none⟩]
      < buildUtilMs 0 100
        [⟨"A", none, none, some 100, none⟩, ⟨"B", none, none, some 100, none⟩] := by
  refine ⟨by decide, by decide, by decide⟩

/-- C4: for `start <= end`, `businessMsBetween` equals the day-by-day walk
that adds each touched calendar day's overlap with `[start, end]` exactly
when the day is not a Saturday or Sunday; concretely, from Friday 10:00
(1970-01-02T10:00Z, local day 1) to Monday 10:00 (local day 4) only the
Friday portion (14 h) and the Monday portion (10 h) count, the Saturday
and Sunday in between being weekend days. -/
theorem c4_business_day_walk :
    (∀ tz a b : Int, a ≤ b →
      businessMsBetween tz a b = businessSpecMs tz a b) ∧
    businessMsBetween 0 122400000 381600000 =
      dayOverlap 0 1 122400000 381600000 +
        dayOverlap 0 4 122400000 381600000 ∧
    dayOverlap 0 1 122400000 381600000 = 14 * 3600000 ∧
    dayOverlap 0 4 122400000 381600000 = 10 * 3600000 ∧
    isWeekendDay 1 = false ∧ isWeekendDay 2 = true ∧
    isWeekendDay 3 = true ∧ isWeekendDay 4 = false := by
  refine ⟨businessMsBetween_eq_spec, ?_, by decide, by decide, by decide,
    by decide, by decide, by decide⟩
  rw [businessMsBetween_eq_spec 0 122400000 381600000 (by decide)]
  decide

/-- Witness for C4: a one-day span evaluated through the theorem. -/
theorem c4_business_day_walk_witness :
    businessMsBetween 0 0 86400000 = businessSpecMs 0 0 86400000 :=
  c4_business_day_walk.1 0 0 86400000 (by decide)

/-- C8: both SLA-hours selectors — `getSlaHoras` of `src/lib/sla.ts` and
the inlined dashboard/alert selector — return the stored `slaHours` when it
is a finite positive number, and the 72-hour default when the field is
absent, non-numeric, or not greater than zero. -/
theorem c8_effective_sla_hours (v : JsVal) :
    (∀ q : ℚ, v = .num q → 0 < q →
      getSlaHoras v = q ∧ effSlaInline v = .num q) ∧
    (isJsNumber v = false →
      getSlaHoras v = 72 ∧ effSlaInline v = .num 72) ∧
    (isJsNumber v = true → jsGtZero v = false →
      getSlaHoras v = 72 ∧ effSlaInline v = .num 72) := by
  refine ⟨?_, ?_, ?_⟩
  · rintro q rfl hq
    constructor
    · simp [getSlaHoras, hq]
    · simp [effSlaInline, isJsNumber, jsGtZero, hq]
  · intro hnum
    cases v <;> simp_all [getSlaHoras, effSlaInline, isJsNumber]
  · intro hnum hpos
    cases v <;>
      simp_all [getSlaHoras, effSlaInline, isJsNumber, jsGtZero]

/-- Witness for C8: a stored value of 5 hours is used as-is; a stored
value of -3 falls back to the 72-hour default in both selectors. -/
theorem c8_effective_sla_hours_witness :
    (getSlaHoras (.num 5) = 5 ∧ effSlaInline (.num 5) = .num 5) ∧
    (getSlaHoras (.num (-3)) = 72 ∧ effSlaInline (.num (-3)) = .num 72) :=
  ⟨(c8_effective_sla_hours (.num 5)).1 5 rfl (by decide),
    (c8_effective_sla_hours (.num (-3))).2.2 rfl (by decide)⟩


/-- C9: completion is refused whenever the status is `"AGUARDANDO_SANEAR"`
or an open dependency pause exists; the two conditions are combined by a
disjunction, so each alone blocks, on both handlers (the `handleSaveDetails`
guard applies to saves that set a concluded status). -/
theorem c9_completion_refused (status : Option String)
    (pausas : Option (List SlaPausa)) :
    (servicoExecutadoBlocked status pausas = true ↔
      normalizeStatus status = "AGUARDANDO_SANEAR" ∨
        hasOpenSanearPause pausas = true) ∧
    (normalizeStatus status = "AGUARDANDO_SANEAR" →
      servicoExecutadoBlocked status pausas = true) ∧
    (hasOpenSanearPause pausas = true →
      servicoExecutadoBlocked status pausas = true) ∧
    (saveDetailsWantsConclude status = true →
      (saveDetailsBlocked status pausas = true ↔
        normalizeStatus status = "AGUARDANDO_SANEAR" ∨
          hasOpenSanearPause pausas = true)) := by
  refine ⟨?_, ?_, ?_, ?_⟩
  · simp [servicoExecutadoBlocked]
  · intro h
    simp [servicoExecutadoBlocked, h]
  · intro h
    simp [servicoExecutadoBlocked, h]
  · intro h
    simp [saveDetailsBlocked, servicoExecutadoBlocked, h]

/-- Witness for C9: the status alone blocks, and an open pause alone
blocks, on concrete inputs. -/
theorem c9_completion_refused_witness :
    servicoExecutadoBlocked (some "aguardando_sanear") none = true ∧
    servicoExecutadoBlocked (some "EM ANDAMENTO")
      (some [⟨"SANEAR", none, none, some 1, none⟩]) = true :=
  ⟨(c9_completion_refused (some "aguardando_sanear") none).2.1 (by decide),
    (c9_completion_refused (some "EM ANDAMENTO")
      (some [⟨"SANEAR", none, none, some 1, none⟩])).2.2.1 (by decide)⟩

/-- C10: the dependency-pause predicates match their tags after
normalisation — `hasOpenSanearPause` counts an entry exactly when its kind,
uppercased and trimmed, is `"SANEAR"` and it is open; `isAguardandoSanear`
accepts exactly the two normalised forms; consequently both predicates are
unchanged under any rewriting of the tags that preserves the uppercased,
trimmed form (case or surrounding-whitespace changes). -/
theorem c10_tag_matching_normalised (ps ps' : List SlaPausa) (s s' : String) :
    (hasOpenSanearPause (some ps) = true ↔
      ∃ p ∈ ps, normTipo p.tipo = "SANEAR" ∧ p.fimEm = none) ∧
    (isAguardandoSanear (some s) = true ↔
      normTipo s = "AGUARDANDO_SANEAR" ∨ normTipo s = "AGUARDANDO SANEAR") ∧
    (ps.length = ps'.length →
      (∀ i, i < ps.length →
        normTipo (ps.getD i default).tipo = normTipo (ps'.getD i default).tipo ∧
        (ps.getD i default).fimEm = (ps'.getD i default).fimEm) →
      hasOpenSanearPause (some ps) = hasOpenSanearPause (some ps')) ∧
    (normTipo s = normTipo s' →
      isAguardandoSanear (some s) = isAguardandoSanear (some s')) := by
  have hidxform : ∀ l : List SlaPausa, hasOpenSanearPause (some l) = true ↔
      ∃ i, i < l.length ∧ isOpenSanear (l.getD i default) = true := by
    intro l
    rw [hasOpenSanearPause_iff]
    constructor
    · rintro ⟨p, hp, hopen⟩
      obtain ⟨n, hn, rfl⟩ := List.mem_iff_getElem.mp hp
      refine ⟨n, hn, ?_⟩
      rwa [List.getD_eq_getElem l default hn]
    · rintro ⟨i, hi, hopen⟩
      refine ⟨l.getD i default, ?_, hopen⟩
      rw [List.getD_eq_getElem l default hi]
      exact List.getElem_mem hi
  refine ⟨?_, ?_, ?_, ?_⟩
  · rw [hasOpenSanearPause_iff]
    constructor
    · rintro ⟨p, hp, hopen⟩
      refine ⟨p, hp, ?_⟩
      simpa [isOpenSanear, Option.isNone_iff_eq_none] using hopen
    · rintro ⟨p, hp, h1, h2⟩
      exact ⟨p, hp, by simp [isOpenSanear, h1, h2]⟩
  · simp [isAguardandoSanear]
  · intro hlen hpt
    rw [Bool.eq_iff_iff, hidxform ps, hidxform ps']
    constructor
    · rintro ⟨i, hi, hopen⟩
      refine ⟨i, by omega, ?_⟩
      obtain ⟨ht, hf⟩ := hpt i hi
      simp only [isOpenSanear, ← ht, ← hf]
      exact hopen
    · rintro ⟨i, hi, hopen⟩
      have hi' : i < ps.length := by omega
      refine ⟨i, hi', ?_⟩
      obtain ⟨ht, hf⟩ := hpt i hi'
      simp only [isOpenSanear, ht, hf]
      exact hopen
  · intro h
    simp [isAguardandoSanear, h]

/-- Witness for C10: lower-cased, whitespace-padded variants of the tags
leave both predicates unchanged. -/
theorem c10_tag_matching_normalised_witness :
    hasOpenSanearPause (some [⟨"sanear ", none, none, some 1, none⟩]) =
      hasOpenSanearPause (some [⟨" SANEAR", none, none, some 1, none⟩]) ∧
    isAguardandoSanear (some " aguardando sanear ") =
      isAguardandoSanear (some "AGUARDANDO SANEAR") :=
  ⟨(c10_tag_matching_normalised [⟨"sanear ", none, none, some 1, none⟩]
      [⟨" SANEAR", none, none, some 1, none⟩] "" "").2.2.1 (by decide)
      (by decide),
    (c10_tag_matching_normalised [] [] " aguardando sanear "
      "AGUARDANDO SANEAR").2.2.2 (by decide)⟩
